import Mathlib

/-!
# Verification of the earthquake-alert dashboard (`src/alert/script.js`)

A shallow embedding of the data model and operations of the dashboard:
magnitude classification, the list/marker renderer, the major-quake
highlight, the statistics aggregator (24h/7d counts, largest-24h scan,
daily buckets), the auto-refresh countdown machinery, and the evaluation
order of the trailing top-level statements.

JS numbers are modelled as `ℚ` (`null`/`undefined` as `Option`), epoch
milliseconds as `Int`, and the `seenQuakes` set as a duplicate-free list
of identifiers.
-/

namespace Alert

/-- One GeoJSON feature as consumed by the script: `f.id`,
`f.properties.mag` (nullable), `f.properties.place` (nullable),
`f.properties.time` (nullable epoch ms; `0` is falsy in JS so we keep the
raw value), `f.geometry.coordinates` (may be absent or short), and
`f.properties.url`. -/
structure Feature where
  id : String
  mag : Option ℚ
  place : Option String
  time : Option Int
  coords : List ℚ
  url : Option String
  deriving DecidableEq, Repr

/-- `props.time || Date.now()` — a missing or zero (falsy) timestamp is
replaced by the current time. -/
def timeOrNow (t : Option Int) (now : Int) : Int :=
  match t with
  | none => now
  | some v => if v = 0 then now else v

/-- JS truthiness of the `time` field: present and nonzero. -/
def timeTruthy (t : Option Int) : Bool :=
  match t with
  | none => false
  | some v => v ≠ 0

/-- `magClass` from the script: severity tier for list styling. -/
def magClass (m : ℚ) : String :=
  if m ≥ 5 then "high" else if m ≥ 4 then "mid" else "low"

/-- `magColor` from the script: five-level marker colour scale. -/
def magColor (m : ℚ) : String :=
  if m ≥ 6 then "#d32f2f"
  else if m ≥ 5 then "#ff5c5c"
  else if m ≥ 4 then "#ffb86b"
  else "#64ffda"

/-- `(props.mag === null || props.mag === undefined) ? 0 : props.mag`
in `fetchQuakesAndRender`. -/
def substMag (m : Option ℚ) : ℚ := m.getD 0

/-- JS `m || 0` for a (non-NaN) number: `0` stays `0`, anything else is
kept. -/
def jsOr0 (m : ℚ) : ℚ := if m = 0 then 0 else m

/-- Marker radius in `fetchQuakesAndRender`:
`Math.max(4, 4 + (mag || 0))`. -/
def markerRadius (mag : ℚ) : ℚ := max 4 (4 + jsOr0 mag)

/-- Marker colour in `fetchQuakesAndRender`: `magColor(mag || 0)`. -/
def markerColor (mag : ℚ) : String := magColor (jsOr0 mag)

/-- The severity class put on a feature's list card:
`magClass(mag)` applied to the null-substituted magnitude. -/
def cardClass (f : Feature) : String := magClass (substMag f.mag)

/-- The map marker built for a feature with usable coordinates
(`coords.length >= 2`), as (radius, colour); `none` when the feature has
no usable coordinates. -/
def markerFor (f : Feature) : Option (ℚ × String) :=
  if 2 ≤ f.coords.length then
    some (markerRadius (substMag f.mag), markerColor (substMag f.mag))
  else none

/-! ## The `seenQuakes` set -/

/-- `seenQuakes`: the set of event identifiers already surfaced, modelled
as a list of ids without duplicates (a JS `Set` of strings). -/
abbrev SeenSet := List String

/-- `seenQuakes.has(id)`. -/
def SeenSet.hasId (s : SeenSet) (id : String) : Bool := List.contains s id

/-- `seenQuakes.add(id)` — idempotent insertion. -/
def SeenSet.addId (s : SeenSet) (id : String) : SeenSet :=
  if List.contains s id then s else id :: s

/-! ## `fetchQuakesAndRender`: per-feature seen/toast logic -/

/-- The `data.features.forEach` body of `fetchQuakesAndRender` restricted
to its notification effect: if the id is not yet seen, it is added and,
when the event time is within the last hour, a toast for that id is
emitted (lines 185–190 of the script). The accumulator carries the toast
ids in emission order and the current seen set. -/
def fqFeatureStep (now : Int) (acc : List String × SeenSet) (f : Feature) :
    List String × SeenSet :=
  let toasts := acc.1
  let seen := acc.2
  if seen.hasId f.id then (toasts, seen)
  else
    let seen2 := seen.addId f.id
    if now - timeOrNow f.time now < 3600000 then (toasts ++ [f.id], seen2)
    else (toasts, seen2)

/-- The notification pass of `fetchQuakesAndRender` over a fetched batch:
the emitted toast ids and the updated seen set. -/
def fetchQuakesToasts (now : Int) (seen : SeenSet) (fs : List Feature) :
    List String × SeenSet :=
  fs.foldl (fqFeatureStep now) ([], seen)

/-! ## `updateStatistics`: 24h subset and the largest-24h scan -/

/-- `features.filter(f => (f.properties && f.properties.time) &&
f.properties.time >= past24Cutoff)` with `past24Cutoff = now - 24h`. -/
def features24 (now : Int) (fs : List Feature) : List Feature :=
  fs.filter (fun f =>
    timeTruthy f.time && (match f.time with
      | some t => now - 86400000 ≤ t
      | none => false))

/-- The record `updateStatistics` keeps for the current largest-24h
candidate (`{ mag, place, time, id, url }`). -/
structure Largest where
  mag : ℚ
  place : Option String
  time : Option Int
  id : String
  url : Option String
  deriving DecidableEq, Repr

/-- Builds the `largest24` record from a feature with magnitude `m`. -/
def mkLargest (m : ℚ) (f : Feature) : Largest :=
  ⟨m, f.place, f.time, f.id, f.url⟩

/-- One iteration of the `for (const f of features24)` loop: features
with a null/undefined magnitude are skipped; otherwise the candidate is
replaced only on a strictly greater magnitude. -/
def largestStep (best : Option Largest) (f : Feature) : Option Largest :=
  match f.mag with
  | none => best
  | some m =>
    match best with
    | none => some (mkLargest m f)
    | some b => if m > b.mag then some (mkLargest m f) else some b

/-- The linear scan computing `largest24` over the 24h subset. -/
def scanLargest (fs : List Feature) : Option Largest :=
  fs.foldl largestStep none

/-- The text rendered into the largest-24h stat:
`largest24 ? \x7bM...\x7d : em-dash`. -/
def statLargestText (l : Option Largest) : String :=
  match l with
  | none => "—"
  | some v => "M" ++ toString v.mag

/-- The notification step of `updateStatistics` (lines 316–319): a toast
fires only when the largest-24h event has magnitude ≥ 5 and its id is not
already seen; the id is then added. Returns the optional toast id and the
updated seen set. -/
def statsToast (seen : SeenSet) (l : Option Largest) :
    Option String × SeenSet :=
  match l with
  | none => (none, seen)
  | some v =>
    if v.mag ≥ 5 ∧ ¬ seen.hasId v.id then (some v.id, seen.addId v.id)
    else (none, seen)

/-! ## `updateStatistics`: daily buckets

`toISOString().slice(0, 10)` yields the UTC calendar date of an instant,
so a day key is modelled as the floor of the epoch-millisecond timestamp
divided by the length of a day. `d.setDate(d.getDate() - i)` subtracts
`i` calendar days at a fixed UTC offset (the region of interest, the
Philippines, has no daylight saving), i.e. `i * msPerDay` milliseconds. -/

def msPerDay : Int := 86400000

/-- The UTC calendar day of an epoch-ms instant — the day whose ISO date
`toISOString().slice(0, 10)` renders. -/
def utcDayKey (t : Int) : Int := Int.fdiv t msPerDay

/-- Philippine Standard Time is UTC+8 with no daylight saving. -/
def phTzOffsetMs : Int := 28800000

/-- Modelled from the spec: the region-local (Philippines) calendar day
of an instant, as the spec's "region-local ISO date" bucket key would
compute it. -/
def phLocalDayKey (t : Int) : Int := Int.fdiv (t + phTzOffsetMs) msPerDay

/-- The bucket map, in insertion order (a JS object with string keys
preserves it): day key paired with count. -/
abbrev Buckets := List (Int × Nat)

/-- The `for (let i = 6; i >= 0; i--)` loop building the empty buckets:
keys for `now - 6 days` through `now`, oldest first, all zero. -/
def bucketsInit (now : Int) : Buckets :=
  (List.range 7).reverse.map (fun i => (utcDayKey (now - (i : Int) * msPerDay), 0))

/-- `if (key in buckets) buckets[key] += 1` — increments the entry with
the given key when present, otherwise leaves the map unchanged. -/
def bucketsIncr (b : Buckets) (k : Int) : Buckets :=
  b.map (fun p => if p.1 = k then (p.1, p.2 + 1) else p)

/-- The `features.forEach` body of the bucket pass: skip events with a
falsy (`null`/`undefined`/`0`) timestamp, otherwise increment the bucket
keyed by the event's UTC calendar day. -/
def bucketEventStep (b : Buckets) (f : Feature) : Buckets :=
  match f.time with
  | none => b
  | some t => if t = 0 then b else bucketsIncr b (utcDayKey t)

/-- The full bucket computation of one statistics refresh. -/
def runBuckets (now : Int) (fs : List Feature) : Buckets :=
  fs.foldl bucketEventStep (bucketsInit now)

/-- Lookup of a day's count in the bucket map. -/
def bucketLookup (b : Buckets) (k : Int) : Option Nat :=
  (b.find? (fun p => p.1 = k)).map Prod.snd

/-- The chart labels: `Object.keys(buckets)` in insertion order. -/
def bucketLabels (b : Buckets) : List Int := b.map Prod.fst

/-! ## Fetch outcomes -/

/-- The outcome of one `fetch`: the promise rejects, or a response
arrives with an `ok` flag and a body whose `json()` either throws
(parse failure) or yields a payload whose `features` array may be
missing (`none`). -/
inductive FetchResult where
  | reject
  | response (ok : Bool) (body : Except Unit (Option (List Feature)))

/-- `data.features || []`. -/
def featuresOf (body : Option (List Feature)) : List Feature := body.getD []

/-! ## `updateMajorHighlight` -/

/-- The parameters `buildUSGSUrl` encodes for one feed query (the
bounding box is the fixed `PH_BBOX` for every call in the script). -/
structure UsgsQuery where
  windowDays : Nat
  limit : Nat
  minmag : Option ℚ
  orderby : String
  deriving DecidableEq, Repr

/-- The 7-day major-quake query (line 205). -/
def query7 : UsgsQuery := ⟨7, 50, some 5, "time"⟩

/-- The 30-day fallback query (line 208). -/
def query30 : UsgsQuery := ⟨30, 200, some 5, "time"⟩

/-- What the major-highlight panel ends up showing. -/
inductive MajorRender where
  | errorState
  | emptyState
  | highlight (f : Feature)
  deriving DecidableEq, Repr

/-- The `try` block of `updateMajorHighlight`: the queries issued in
order, and either the render outcome or the thrown error. The first
response's `ok` flag is checked; the fallback response's is not (the
script calls `res.json()` on it directly). -/
def majorBody (r7 r30 : FetchResult) : List UsgsQuery × Except Unit MajorRender :=
  match r7 with
  | .reject => ([query7], .error ())
  | .response ok body =>
    if ¬ ok then ([query7], .error ())
    else match body with
    | .error _ => ([query7], .error ())
    | .ok d =>
      match featuresOf d with
      | top :: _ => ([query7], .ok (.highlight top))
      | [] =>
        match r30 with
        | .reject => ([query7, query30], .error ())
        | .response _ body2 =>
          match body2 with
          | .error _ => ([query7, query30], .error ())
          | .ok d2 =>
            match featuresOf d2 with
            | top :: _ => ([query7, query30], .ok (.highlight top))
            | [] => ([query7, query30], .ok .emptyState)

/-- `updateMajorHighlight` with its `catch`: any thrown error renders the
"Unable to check major quakes" error state. -/
def updateMajorHighlight (r7 r30 : FetchResult) : List UsgsQuery × MajorRender :=
  let (qs, res) := majorBody r7 r30
  (qs, match res with | .ok v => v | .error _ => .errorState)

/-- The seen-set effect of `updateMajorHighlight` (line 275): the
highlighted id is added, with no toast. -/
def majorSeenEffect (seen : SeenSet) (render : MajorRender) : SeenSet :=
  match render with
  | .highlight f => seen.addId f.id
  | _ => seen

/-! ## `doFullRefresh`: the three operations with their local catches -/

/-- One rendered list entry plus its optional map marker. -/
structure QuakeCard where
  id : String
  cls : String
  marker : Option (ℚ × String)
  deriving DecidableEq, Repr

/-- The list-card/marker view of one feature. -/
def renderCard (f : Feature) : QuakeCard := ⟨f.id, cardClass f, markerFor f⟩

/-- What the quake-list region ends up showing. -/
inductive QuakeListRender where
  | errorMsg
  | emptyMsg
  | cards (entries : List QuakeCard)
  deriving DecidableEq, Repr

/-- The `try` block of `fetchQuakesAndRender`: throws on a rejected
fetch, a non-ok status, or a parse failure; otherwise renders the empty
message or the cards. -/
def fetchQuakesBody (r : FetchResult) : Except Unit QuakeListRender :=
  match r with
  | .reject => .error ()
  | .response ok body =>
    if ¬ ok then .error ()
    else match body with
    | .error _ => .error ()
    | .ok d =>
      match featuresOf d with
      | [] => .ok .emptyMsg
      | fs => .ok (.cards (fs.map renderCard))

/-- `fetchQuakesAndRender` with its `catch`: the error branch renders the
inline error message. -/
def fetchQuakesOp (r : FetchResult) : QuakeListRender :=
  match fetchQuakesBody r with
  | .ok v => v
  | .error _ => .errorMsg

/-- The three stat texts (`statDailyCount`, `statWeeklyCount`,
`statLargest24h`). -/
structure StatsRender where
  daily : String
  weekly : String
  largest : String
  deriving DecidableEq, Repr

/-- The `try` block of `updateStatistics` restricted to the stat texts:
throws on a rejected fetch, non-ok status, or parse failure. -/
def statsBody (now : Int) (r : FetchResult) : Except Unit StatsRender :=
  match r with
  | .reject => .error ()
  | .response ok body =>
    if ¬ ok then .error ()
    else match body with
    | .error _ => .error ()
    | .ok d =>
      let fs := featuresOf d
      let f24 := features24 now fs
      .ok ⟨toString f24.length, toString fs.length,
           statLargestText (scanLargest f24)⟩

/-- `updateStatistics` with its `catch`: every stat falls back to the
em-dash placeholder. -/
def statsOp (now : Int) (r : FetchResult) : StatsRender :=
  match statsBody now r with
  | .ok v => v
  | .error _ => ⟨"—", "—", "—"⟩

/-- Each async operation as a settled promise: the whole body sits inside
`try`/`catch` and the handlers only write to the DOM, so the returned
promise is always fulfilled. -/
def fetchQuakesAsync (r : FetchResult) : Except Unit QuakeListRender :=
  match fetchQuakesBody r with
  | .ok v => .ok v
  | .error _ => .ok .errorMsg

/-- `updateMajorHighlight` as a settled promise. -/
def majorAsync (r7 r30 : FetchResult) : Except Unit MajorRender :=
  match (majorBody r7 r30).2 with
  | .ok v => .ok v
  | .error _ => .ok .errorState

/-- `updateStatistics` as a settled promise. -/
def statsAsync (now : Int) (r : FetchResult) : Except Unit StatsRender :=
  match statsBody now r with
  | .ok v => .ok v
  | .error _ => .ok ⟨"—", "—", "—"⟩

/-- `Promise.all` over the three operations: rejects iff one of them
rejects. -/
def promiseAll3 {A B C : Type} (a : Except Unit A) (b : Except Unit B)
    (c : Except Unit C) : Except Unit (A × B × C) :=
  match a with
  | .error e => .error e
  | .ok x =>
    match b with
    | .error e => .error e
    | .ok y =>
      match c with
      | .error e => .error e
      | .ok z => .ok (x, y, z)

/-- `doFullRefresh`: one full cycle over the outcomes of the four
network requests the three operations may make. -/
def doFullRefresh (now : Int) (rList r7 r30 rStats : FetchResult) :
    Except Unit (QuakeListRender × MajorRender × StatsRender) :=
  promiseAll3 (fetchQuakesAsync rList) (majorAsync r7 r30) (statsAsync now rStats)

/-! ## Notification steps across refresh cycles -/

/-- One renderer invocation, as far as the seen set and toasts are
concerned: a successful `fetchQuakesAndRender` pass over a batch, a
successful `updateStatistics` pass over a batch, or an
`updateMajorHighlight` run over its two fetch outcomes. -/
inductive Step where
  | render (now : Int) (fs : List Feature)
  | statsRun (now : Int) (fs : List Feature)
  | majorRun (r7 r30 : FetchResult)

/-- The toast ids emitted by one step and the seen set it leaves. -/
def runStep (seen : SeenSet) : Step → List String × SeenSet
  | .render now fs => fetchQuakesToasts now seen fs
  | .statsRun now fs =>
    ((statsToast seen (scanLargest (features24 now fs))).1.toList,
     (statsToast seen (scanLargest (features24 now fs))).2)
  | .majorRun r7 r30 =>
    ([], majorSeenEffect seen (updateMajorHighlight r7 r30).2)

/-- Any interleaving of renderer invocations over later refresh cycles:
all toast ids emitted, in order, and the final seen set. -/
def runSteps (seen : SeenSet) : List Step → List String × SeenSet
  | [] => ([], seen)
  | s :: rest =>
    ((runStep seen s).1 ++ (runSteps (runStep seen s).2 rest).1,
     (runSteps (runStep seen s).2 rest).2)

/-! ## Auto-refresh and the countdown -/

/-- `Number(refreshSecondsInput.value)` modelled as an optional rational:
`none` is `NaN` (a non-numeric field). -/
def validatedSecs (v : Option ℚ) : ℚ :=
  match v with
  | none => 30
  | some s => if 5 ≤ s then s else 30

/-- `autoInterval = Math.max(5000, Math.floor(validatedSecs) * 1000)`. -/
def autoIntervalMs (v : Option ℚ) : Int := max 5000 (⌊validatedSecs v⌋ * 1000)

/-- The timer configuration `startAuto` leaves behind: the interval, the
full countdown value `Math.floor(autoInterval / 1000)`, and whether the
two timers were armed (they are exactly when auto-refresh is enabled). -/
structure AutoConfig where
  autoInterval : Int
  countdownFull : Int
  armed : Bool
  deriving DecidableEq, Repr

/-- `startAuto`: clears timers, validates the input, resets the
countdown, and re-arms both timers when enabled. -/
def startAuto (enabled : Bool) (input : Option ℚ) : AutoConfig :=
  let iv := autoIntervalMs input
  ⟨iv, iv / 1000, enabled⟩

/-- The `change` handler of the interval input: an invalid value
(`NaN` or `< 5`) overwrites the field with 30 before `startAuto` runs. -/
def changeHandlerInput (v : Option ℚ) : Option ℚ :=
  match v with
  | none => some 30
  | some q => if q < 5 then some 30 else some q

/-- The whole interval-change flow: sanitize the field, then
`startAuto`. -/
def applyIntervalChange (enabled : Bool) (v : Option ℚ) : AutoConfig :=
  startAuto enabled (changeHandlerInput v)

/-- The two independent timers' callbacks. -/
inductive TickEvent where
  | countdown
  | cycle
  deriving DecidableEq, Repr

/-- The new `countdownRemaining` after one callback: the one-second tick
decrements and wraps to the full value at zero or below; the cycle timer
resets to the full value. -/
def tickRemaining (full rem : Int) : TickEvent → Int
  | .countdown => if rem - 1 ≤ 0 then full else rem - 1
  | .cycle => full

/-- One callback's effect on (remaining, displayed values so far): only
the countdown tick writes to the display. -/
def traceStep (full : Int) (acc : Int × List Int) (e : TickEvent) :
    Int × List Int :=
  match e with
  | .countdown =>
    let r := tickRemaining full acc.1 .countdown
    (r, acc.2 ++ [r])
  | .cycle => (tickRemaining full acc.1 .cycle, acc.2)

/-- Every value the countdown element displays while enabled: the initial
display written by `startAuto` (the full value), then each countdown
tick's result, under any interleaving of the two timers. -/
def displayTrace (full : Int) (evs : List TickEvent) : List Int :=
  (evs.foldl (traceStep full) (full, [full])).2

/-! ## The trailing top-level statements -/

/-- The top-level statements of the script after the function
declarations, in source order; the two trailing function declarations
(`testUSGS`, `loadWeather`) are hoisted and contribute no evaluation
step. -/
inductive TopStmt where
  | bindListeners
  | callInit
  | getTableBody
  | clearTableBody
  | renderTable
  | declQuakes
  | callLoadWeather
  | callTestUSGS
  deriving DecidableEq, Repr

/-- The two error kinds the tail can throw. -/
inductive JsErr where
  | typeError
  | referenceError
  deriving DecidableEq, Repr

/-- Observable effects of the top-level statements. -/
inductive Effect where
  | listenersBound
  | initStarted
  | tableCleared
  | tableRendered
  | loadWeatherRun
  | testUSGSRun
  deriving DecidableEq, Repr

/-- Binding state during top-level evaluation: whether `const quakes` has
been initialized (temporal dead zone before line 502), whether a `data`
binding exists at top level (none is ever declared), and whether the
`quake-table-body` element exists in the page. -/
structure TopState where
  quakesInit : Bool
  dataDefined : Bool
  tableBodyElem : Bool
  deriving DecidableEq, Repr

/-- One top-level statement: reading `quakes` before its `const` runs
throws a ReferenceError (temporal dead zone); reading the undeclared
`data` throws a ReferenceError; setting `innerHTML` on a null element
throws a TypeError. -/
def evalStmt (st : TopState) : TopStmt → Except JsErr (TopState × List Effect)
  | .bindListeners => .ok (st, [.listenersBound])
  | .callInit => .ok (st, [.initStarted])
  | .getTableBody => .ok (st, [])
  | .clearTableBody =>
    if st.tableBodyElem then .ok (st, [.tableCleared]) else .error .typeError
  | .renderTable =>
    if st.quakesInit then .ok (st, [.tableRendered]) else .error .referenceError
  | .declQuakes =>
    if st.dataDefined then .ok ({ st with quakesInit := true }, [])
    else .error .referenceError
  | .callLoadWeather => .ok (st, [.loadWeatherRun])
  | .callTestUSGS => .ok (st, [.testUSGSRun])

/-- Sequential evaluation of a classic script: a thrown error stops
everything after it; the effects already performed stay. -/
def evalProgram (st : TopState) : List TopStmt → List Effect × Option JsErr
  | [] => ([], none)
  | s :: rest =>
    match evalStmt st s with
    | .error e => ([], some e)
    | .ok (st2, effs) =>
      let res := evalProgram st2 rest
      (effs ++ res.1, res.2)

/-- The script's statement tail (lines 445–547), starting from the event
bindings and the `init` invocation. -/
def scriptTail : List TopStmt :=
  [.bindListeners, .callInit, .getTableBody, .clearTableBody, .renderTable,
   .declQuakes, .callLoadWeather, .callTestUSGS]

/-- Running the tail against a page that does or does not contain the
`quake-table-body` element; no `data` binding exists either way and
`const quakes` is uninitialized until its own declaration runs. -/
def runScriptTail (tableBodyElem : Bool) : List Effect × Option JsErr :=
  evalProgram ⟨false, false, tableBodyElem⟩ scriptTail

/-! ## Theorems -/

/-- C10: for every event record whose magnitude field is null or
undefined, `fetchQuakesAndRender` substitutes magnitude 0, so the event
is classified into the "low" severity tier for its list entry and, when
coordinates are present, its marker gets the teal colour and the minimum
radius 4 (no magnitude can produce a smaller radius). -/
theorem nullMag_renders_low_teal_min (f : Feature) (h : f.mag = none) :
    substMag f.mag = 0 ∧
    cardClass f = "low" ∧
    (2 ≤ f.coords.length → markerFor f = some (4, "#64ffda")) ∧
    (∀ m : ℚ, 4 ≤ markerRadius m) := by
  refine ⟨by simp [substMag, h], by norm_num [cardClass, substMag, h, magClass], ?_, ?_⟩
  · intro hc
    simp only [markerFor, if_pos hc, h]
    norm_num [markerRadius, markerColor, substMag, jsOr0, magColor]
  · intro m
    exact le_max_left 4 _

/-- Witness for C10 at a concrete feature with a null magnitude and
valid coordinates. -/
theorem nullMag_renders_low_teal_min_w :
    cardClass ⟨"w10", none, none, none, [121, 14], none⟩ = "low" ∧
    markerFor ⟨"w10", none, none, none, [121, 14], none⟩ = some (4, "#64ffda") := by
  have h := nullMag_renders_low_teal_min ⟨"w10", none, none, none, [121, 14], none⟩ rfl
  exact ⟨h.2.1, h.2.2.1 (by decide)⟩

/-- C5: a full refresh cycle never fails as a whole: with every
operation's own catch in place, `doFullRefresh`'s `Promise.all` resolves
for every combination of fetch outcomes, and each region's render is a
function of that operation's own outcome only, so a failure in one
operation does not affect the other two. -/
theorem fullRefresh_never_fails (now : Int) (rList r7 r30 rStats : FetchResult) :
    doFullRefresh now rList r7 r30 rStats =
      .ok (fetchQuakesOp rList, (updateMajorHighlight r7 r30).2, statsOp now rStats) := by
  unfold doFullRefresh promiseAll3 fetchQuakesAsync majorAsync statsAsync
    fetchQuakesOp statsOp updateMajorHighlight
  cases fetchQuakesBody rList <;>
    rcases hm : majorBody r7 r30 with ⟨qs, res⟩ <;> cases res <;>
      cases statsBody now rStats <;> simp [hm]

/-- C2: evaluation of the trailing top-level statements always throws —
with the `quake-table-body` element present, at the temporal-dead-zone
read of `quakes` (a ReferenceError; `const quakes` is declared only
later, and its initializer would read the undeclared `data` anyway), and
without the element, already at the null `innerHTML` write — so the
`loadWeather()` and `testUSGS()` invocations never run, while the
earlier-registered event listeners and the initial refresh are
unaffected. -/
theorem topLevelTail_throws_before_weather :
    runScriptTail true =
      ([.listenersBound, .initStarted, .tableCleared], some .referenceError) ∧
    runScriptTail false =
      ([.listenersBound, .initStarted], some .typeError) ∧
    (runScriptTail true).1.contains .loadWeatherRun = false ∧
    (runScriptTail true).1.contains .testUSGSRun = false ∧
    (runScriptTail false).1.contains .loadWeatherRun = false ∧
    (runScriptTail false).1.contains .testUSGSRun = false ∧
    (runScriptTail true).1.contains .listenersBound = true ∧
    (runScriptTail true).1.contains .initStarted = true ∧
    (runScriptTail false).1.contains .listenersBound = true ∧
    (runScriptTail false).1.contains .initStarted = true := by
  decide

/-- C9: for every refresh-interval input that is non-numeric (`NaN`) or
below 5 seconds, the update is not rejected: the change handler rewrites
the field to 30, `startAuto` validates it again, the effective interval
becomes exactly 30 seconds (30000 ms, countdown 30), and the timers are
re-armed exactly when auto-refresh is enabled. -/
theorem invalid_interval_defaults_30 (enabled : Bool) (v : Option ℚ)
    (h : v = none ∨ ∃ q, v = some q ∧ q < 5) :
    (applyIntervalChange enabled v).autoInterval = 30000 ∧
    (applyIntervalChange enabled v).countdownFull = 30 ∧
    (applyIntervalChange enabled v).armed = enabled := by
  have hin : changeHandlerInput v = some 30 := by
    rcases h with h | ⟨q, rfl, hq⟩
    · subst h; rfl
    · simp [changeHandlerInput, hq]
  have hiv : autoIntervalMs (some 30) = 30000 := by
    norm_num [autoIntervalMs, validatedSecs]
  simp [applyIntervalChange, hin, startAuto, hiv]

/-- Witness for C9 at the concrete invalid input 2 (below the floor). -/
theorem invalid_interval_defaults_30_w :
    (applyIntervalChange true (some 2)).autoInterval = 30000 :=
  (invalid_interval_defaults_30 true (some 2) (Or.inr ⟨2, rfl, by norm_num⟩)).1

/-- C6: `updateMajorHighlight` first issues the query for magnitude ≥ 5
over the last 7 days capped at 50 (newest first); exactly when that
result set is empty it issues the same query over 30 days capped at 200;
it highlights the first returned event of the result set it uses; and
when both result sets are empty it renders the explicit empty state, not
an error. Stated for successful responses (the first response ok, both
bodies parsed). -/
theorem majorHighlight_query_fallback (r7 r30 : FetchResult) (ok30 : Bool)
    (d d30 : Option (List Feature))
    (h7 : r7 = .response true (.ok d)) (h30 : r30 = .response ok30 (.ok d30)) :
    query7 = ⟨7, 50, some 5, "time"⟩ ∧
    query30 = ⟨30, 200, some 5, "time"⟩ ∧
    (featuresOf d ≠ [] →
      (updateMajorHighlight r7 r30).1 = [query7] ∧
      ∀ top rest, featuresOf d = top :: rest →
        (updateMajorHighlight r7 r30).2 = .highlight top) ∧
    (featuresOf d = [] →
      (updateMajorHighlight r7 r30).1 = [query7, query30] ∧
      (∀ top rest, featuresOf d30 = top :: rest →
        (updateMajorHighlight r7 r30).2 = .highlight top) ∧
      (featuresOf d30 = [] → (updateMajorHighlight r7 r30).2 = .emptyState)) := by
  subst h7 h30
  refine ⟨rfl, rfl, ?_, ?_⟩
  · intro hne
    rcases hfd : featuresOf d with _ | ⟨top, rest⟩
    · exact absurd hfd hne
    · refine ⟨?_, ?_⟩
      · simp [updateMajorHighlight, majorBody, hfd]
      · intro t r ht
        cases ht
        simp [updateMajorHighlight, majorBody, hfd]
  · intro hfd
    rcases hfd30 : featuresOf d30 with _ | ⟨top, rest⟩
    · refine ⟨?_, ?_, fun _ => ?_⟩
      · simp [updateMajorHighlight, majorBody, hfd, hfd30]
      · intro t r ht
        cases ht
      · simp [updateMajorHighlight, majorBody, hfd, hfd30]
    · refine ⟨?_, ?_, fun hc => ?_⟩
      · simp [updateMajorHighlight, majorBody, hfd, hfd30]
      · intro t r ht
        cases ht
        simp [updateMajorHighlight, majorBody, hfd, hfd30]
      · cases hc

/-- Witness for C6: a nonempty 7-day result set is highlighted directly
and no fallback query is issued. -/
theorem majorHighlight_query_fallback_w :
    (updateMajorHighlight
        (.response true (.ok (some [⟨"w6", some 6, none, some 5, [], none⟩])))
        (.response true (.ok (some [])))).1 = [query7] ∧
    (updateMajorHighlight
        (.response true (.ok (some [⟨"w6", some 6, none, some 5, [], none⟩])))
        (.response true (.ok (some [])))).2 =
      .highlight ⟨"w6", some 6, none, some 5, [], none⟩ := by
  have h := majorHighlight_query_fallback
    (.response true (.ok (some [⟨"w6", some 6, none, some 5, [], none⟩])))
    (.response true (.ok (some []))) true
    (some [⟨"w6", some 6, none, some 5, [], none⟩]) (some []) rfl rfl
  have h3 := h.2.2.1 (by simp [featuresOf])
  exact ⟨h3.1, h3.2 _ _ rfl⟩

/-- The validated interval is at least 5000 ms, so the full countdown
value is at least 5 seconds. -/
theorem countdownFull_ge_five (enabled : Bool) (input : Option ℚ) :
    5 ≤ (startAuto enabled input).countdownFull := by
  have h : 5000 ≤ autoIntervalMs input := le_max_left _ _
  show 5 ≤ autoIntervalMs input / 1000
  omega

/-- Every value the countdown fold ever appends stays in `[1, full]`,
for any interleaving of the two timers' callbacks. -/
theorem traceFold_inv (full : Int) (hf : 1 ≤ full) (evs : List TickEvent) :
    ∀ (rem : Int) (ds : List Int), 1 ≤ rem → rem ≤ full →
      (∀ d ∈ ds, 1 ≤ d ∧ d ≤ full) →
      ∀ d ∈ (evs.foldl (traceStep full) (rem, ds)).2, 1 ≤ d ∧ d ≤ full := by
  induction evs with
  | nil =>
    intro rem ds _ _ hds
    simpa using hds
  | cons e rest ih =>
    intro rem ds h1 h2 hds
    cases e with
    | countdown =>
      have hstep : traceStep full (rem, ds) .countdown =
          (tickRemaining full rem .countdown,
           ds ++ [tickRemaining full rem .countdown]) := rfl
      have hr : 1 ≤ tickRemaining full rem .countdown ∧
          tickRemaining full rem .countdown ≤ full := by
        simp only [tickRemaining]
        split <;> omega
      rw [List.foldl_cons, hstep]
      refine ih _ _ hr.1 hr.2 (fun d hd => ?_)
      rcases List.mem_append.mp hd with h | h
      · exact hds d h
      · have := List.mem_singleton.mp h
        subst this
        exact hr
    | cycle =>
      have hstep : traceStep full (rem, ds) .cycle = (full, ds) := rfl
      rw [List.foldl_cons, hstep]
      exact ih _ _ hf le_rfl hds

/-- C4: while auto-refresh is enabled, every value the countdown element
displays — the full value written by `startAuto` and the value written
by each one-second tick, under any interleaving with the cycle timer's
resets — is an integer in `[1, interval-in-seconds]` inclusive. -/
theorem countdown_display_in_range (input : Option ℚ) (evs : List TickEvent)
    (d : Int) (hd : d ∈ displayTrace (startAuto true input).countdownFull evs) :
    1 ≤ d ∧ d ≤ (startAuto true input).countdownFull := by
  have h5 : 5 ≤ (startAuto true input).countdownFull := countdownFull_ge_five true input
  have hf : 1 ≤ (startAuto true input).countdownFull := by omega
  refine traceFold_inv _ hf evs _ _ hf le_rfl (fun x hx => ?_) d hd
  have := List.mem_singleton.mp hx
  subst this
  exact ⟨hf, le_rfl⟩

/-- Witness for C4: with the default 30-second interval, after one tick
the displayed value 29 is inside `[1, 30]`. -/
theorem countdown_display_in_range_w :
    1 ≤ (29 : Int) ∧ (29 : Int) ≤ (startAuto true none).countdownFull := by
  have hiv : autoIntervalMs none = 30000 := by
    norm_num [autoIntervalMs, validatedSecs]
  have hcf : (startAuto true none).countdownFull = 30 := by
    show autoIntervalMs none / 1000 = 30
    rw [hiv]
    decide
  apply countdown_display_in_range none [.countdown] 29
  rw [hcf]
  decide

/-- Membership in the seen set survives any insertion. -/
theorem hasId_addId (s : SeenSet) (i j : String) (h : s.hasId j = true) :
    (s.addId i).hasId j = true := by
  unfold SeenSet.addId
  split
  · exact h
  · simp only [SeenSet.hasId, List.elem_iff] at h ⊢
    exact List.mem_cons_of_mem _ h

/-- The `updateStatistics` toast branch never toasts an id that is
already seen, and keeps it seen. -/
theorem statsToast_no_retoast (seen : SeenSet) (l : Option Largest) (id : String)
    (h : seen.hasId id = true) :
    (statsToast seen l).1 ≠ some id ∧ (statsToast seen l).2.hasId id = true := by
  cases l with
  | none => exact ⟨by simp [statsToast], h⟩
  | some v =>
    simp only [statsToast]
    split
    next hcond =>
      refine ⟨fun hc => ?_, hasId_addId _ _ _ h⟩
      have hvid : v.id = id := by injection hc
      exact hcond.2 (hvid ▸ h)
    next => exact ⟨by simp, h⟩

/-- The `fetchQuakesAndRender` per-feature pass never toasts an id that
is already seen, and keeps it seen. -/
theorem fqFold_no_retoast (now : Int) (id : String) (fs : List Feature) :
    ∀ (ts : List String) (seen : SeenSet), seen.hasId id = true → id ∉ ts →
      id ∉ (fs.foldl (fqFeatureStep now) (ts, seen)).1 ∧
      (fs.foldl (fqFeatureStep now) (ts, seen)).2.hasId id = true := by
  induction fs with
  | nil =>
    intro ts seen h hts
    exact ⟨hts, h⟩
  | cons f rest ih =>
    intro ts seen h hts
    rw [List.foldl_cons]
    simp only [fqFeatureStep]
    split
    · exact ih ts seen h hts
    case isFalse hseenf =>
      have hne : f.id ≠ id := fun he => hseenf (he ▸ h)
      split
      · refine ih _ _ (hasId_addId _ _ _ h) (fun hc => ?_)
        rcases List.mem_append.mp hc with hc | hc
        · exact hts hc
        · exact hne (List.mem_singleton.mp hc).symm
      · exact ih _ _ (hasId_addId _ _ _ h) hts

/-- One renderer step never toasts an already-seen id and keeps it
seen. -/
theorem runStep_no_retoast (seen : SeenSet) (s : Step) (id : String)
    (h : seen.hasId id = true) :
    id ∉ (runStep seen s).1 ∧ (runStep seen s).2.hasId id = true := by
  cases s with
  | render now fs => exact fqFold_no_retoast now id fs [] seen h (by simp)
  | statsRun now fs =>
    have hst := statsToast_no_retoast seen (scanLargest (features24 now fs)) id h
    refine ⟨?_, hst.2⟩
    simp only [runStep]
    cases htoast : (statsToast seen (scanLargest (features24 now fs))).1 with
    | none => simp
    | some a =>
      have hne : a ≠ id := fun he => hst.1 (by rw [htoast, he])
      simp only [Option.toList_some, List.mem_singleton]
      exact fun he => hne he.symm
  | majorRun r7 r30 =>
    refine ⟨by simp [runStep], ?_⟩
    simp only [runStep, majorSeenEffect]
    cases (updateMajorHighlight r7 r30).2 with
    | highlight f => exact hasId_addId _ _ _ h
    | errorState => exact h
    | emptyState => exact h

/-- C1: once an event identifier is in the seen set, no later sequence
of renderer invocations — list/map renders, statistics refreshes, or
major-highlight renders, in any interleaving — ever emits a toast for
it again: both toasting paths check membership first, and every path
only adds ids. -/
theorem seen_never_retoasted (seen : SeenSet) (id : String) (steps : List Step)
    (h : seen.hasId id = true) : id ∉ (runSteps seen steps).1 := by
  induction steps generalizing seen with
  | nil => simp [runSteps]
  | cons s rest ih =>
    have hs := runStep_no_retoast seen s id h
    simp only [runSteps, List.mem_append]
    rintro (hc | hc)
    · exact hs.1 hc
    · exact ih _ hs.2 hc

/-- Witness for C1: an id already in the seen set receives no toast from
a later list render of a batch containing it. -/
theorem seen_never_retoasted_w :
    "w1" ∉ (runSteps ["w1"]
      [.render 0 [⟨"w1", none, none, some 1, [], none⟩]]).1 := by
  apply seen_never_retoasted
  decide

/-- Subtracting whole days shifts the UTC day key by as many days. -/
theorem utcDayKey_sub_days (now k : Int) :
    utcDayKey (now - k * msPerDay) = utcDayKey now - k := by
  unfold utcDayKey msPerDay
  rw [Int.fdiv_eq_ediv _ (by norm_num), Int.fdiv_eq_ediv _ (by norm_num)]
  rw [show now - k * 86400000 = now + -k * 86400000 by ring]
  rw [Int.add_mul_ediv_right _ _ (by norm_num : (86400000 : Int) ≠ 0)]
  ring

/-- The empty bucket map, spelled out: the seven UTC days ending at the
day of `now`, oldest first, all zero. -/
theorem bucketsInit_explicit (now : Int) :
    bucketsInit now =
      [(utcDayKey now - 6, 0), (utcDayKey now - 5, 0), (utcDayKey now - 4, 0),
       (utcDayKey now - 3, 0), (utcDayKey now - 2, 0), (utcDayKey now - 1, 0),
       (utcDayKey now, 0)] := by
  unfold bucketsInit
  rw [show (List.range 7).reverse = [6, 5, 4, 3, 2, 1, 0] from by decide]
  norm_num [utcDayKey_sub_days]

/-- Incrementing preserves the key column. -/
theorem bucketsIncr_labels (b : Buckets) (k : Int) :
    bucketLabels (bucketsIncr b k) = bucketLabels b := by
  induction b with
  | nil => rfl
  | cons p rest ih =>
    simp only [bucketsIncr, bucketLabels, List.map_cons] at ih ⊢
    by_cases hp : p.1 = k <;> simp [hp, ih]

/-- Counting one event preserves the key column. -/
theorem bucketEventStep_labels (b : Buckets) (f : Feature) :
    bucketLabels (bucketEventStep b f) = bucketLabels b := by
  unfold bucketEventStep
  rcases f.time with _ | t
  · rfl
  · dsimp only
    split
    · rfl
    · exact bucketsIncr_labels b _

/-- The whole counting pass preserves the key column. -/
theorem bucketFold_labels (fs : List Feature) :
    ∀ b : Buckets, bucketLabels (fs.foldl bucketEventStep b) = bucketLabels b := by
  induction fs with
  | nil => intro b; rfl
  | cons f rest ih =>
    intro b
    rw [List.foldl_cons, ih, bucketEventStep_labels]

/-- C7: after every statistics refresh the bucket map has exactly 7
entries, keyed oldest to newest by the 7 UTC calendar days ending at the
day of `now` (inclusive), each entry initialized to zero before any
event is counted, for every batch of events. -/
theorem buckets_always_seven (now : Int) (fs : List Feature) :
    bucketsInit now =
      [(utcDayKey now - 6, 0), (utcDayKey now - 5, 0), (utcDayKey now - 4, 0),
       (utcDayKey now - 3, 0), (utcDayKey now - 2, 0), (utcDayKey now - 1, 0),
       (utcDayKey now, 0)] ∧
    bucketLabels (runBuckets now fs) =
      [utcDayKey now - 6, utcDayKey now - 5, utcDayKey now - 4,
       utcDayKey now - 3, utcDayKey now - 2, utcDayKey now - 1,
       utcDayKey now] ∧
    (runBuckets now fs).length = 7 := by
  have hlab : bucketLabels (runBuckets now fs) =
      [utcDayKey now - 6, utcDayKey now - 5, utcDayKey now - 4,
       utcDayKey now - 3, utcDayKey now - 2, utcDayKey now - 1,
       utcDayKey now] := by
    unfold runBuckets
    rw [bucketFold_labels, bucketsInit_explicit]
    rfl
  refine ⟨bucketsInit_explicit now, hlab, ?_⟩
  have hlen := congrArg List.length hlab
  simpa [bucketLabels] using hlen

/-- The number of events of a batch with a truthy timestamp whose UTC
calendar day is `k`. -/
def eventDayHits (fs : List Feature) (k : Int) : Nat :=
  fs.countP (fun f => match f.time with
    | some t => t != 0 && utcDayKey t == k
    | none => false)

/-- Looking up the incremented key after an increment. -/
theorem bucketLookup_incr_eq (b : Buckets) (k : Int) :
    bucketLookup (bucketsIncr b k) k = (bucketLookup b k).map (· + 1) := by
  induction b with
  | nil => rfl
  | cons p rest ih =>
    show bucketLookup ((if p.1 = k then (p.1, p.2 + 1) else p) :: bucketsIncr rest k) k
      = _
    by_cases hp : p.1 = k
    · rw [if_pos hp]
      unfold bucketLookup
      rw [List.find?_cons_of_pos _ (by simpa using hp),
          List.find?_cons_of_pos _ (by simpa using hp)]
      rfl
    · rw [if_neg hp]
      unfold bucketLookup
      rw [List.find?_cons_of_neg _ (by simpa using hp),
          List.find?_cons_of_neg _ (by simpa using hp)]
      exact ih

/-- Looking up any other key after an increment. -/
theorem bucketLookup_incr_ne (b : Buckets) (k k2 : Int) (h : k2 ≠ k) :
    bucketLookup (bucketsIncr b k) k2 = bucketLookup b k2 := by
  induction b with
  | nil => rfl
  | cons p rest ih =>
    show bucketLookup ((if p.1 = k then (p.1, p.2 + 1) else p) :: bucketsIncr rest k) k2
      = _
    by_cases hp : p.1 = k
    · have hp2 : ¬ p.1 = k2 := by rw [hp]; exact fun he => h he.symm
      rw [if_pos hp]
      unfold bucketLookup
      rw [List.find?_cons_of_neg _ (by simpa using hp2),
          List.find?_cons_of_neg _ (by simpa using hp2)]
      exact ih
    · by_cases hq : p.1 = k2
      · rw [if_neg hp]
        unfold bucketLookup
        rw [List.find?_cons_of_pos _ (by simpa using hq),
            List.find?_cons_of_pos _ (by simpa using hq)]
      · rw [if_neg hp]
        unfold bucketLookup
        rw [List.find?_cons_of_neg _ (by simpa using hq),
            List.find?_cons_of_neg _ (by simpa using hq)]
        exact ih

/-- One statistics pass adds, at every key, exactly the number of
truthy-timestamped events whose UTC day equals that key. -/
theorem bucketLookup_fold (fs : List Feature) :
    ∀ (b : Buckets) (k : Int),
      bucketLookup (fs.foldl bucketEventStep b) k =
        (bucketLookup b k).map (· + eventDayHits fs k) := by
  induction fs with
  | nil =>
    intro b k
    rcases h : bucketLookup b k with _ | c <;> simp [eventDayHits, h]
  | cons f rest ih =>
    intro b k
    rw [List.foldl_cons]
    rcases hft : f.time with _ | t
    · rw [show bucketEventStep b f = b from by simp [bucketEventStep, hft], ih]
      rcases h : bucketLookup b k with _ | c <;>
        simp [eventDayHits, List.countP_cons, hft, h]
    · by_cases ht0 : t = 0
      · rw [show bucketEventStep b f = b from by
          simp [bucketEventStep, hft, ht0], ih]
        rcases h : bucketLookup b k with _ | c <;>
          simp [eventDayHits, List.countP_cons, hft, ht0, h]
      · have hstep : bucketEventStep b f = bucketsIncr b (utcDayKey t) := by
          simp [bucketEventStep, hft, ht0]
        by_cases hk : utcDayKey t = k
        · rw [hstep, hk, ih, bucketLookup_incr_eq]
          rcases h : bucketLookup b k with _ | c <;>
            · simp [eventDayHits, List.countP_cons, hft, ht0, hk, h]
              try omega
        · rw [hstep, ih, bucketLookup_incr_ne _ _ _ (fun he => hk he.symm)]
          rcases h : bucketLookup b k with _ | c <;>
            simp [eventDayHits, List.countP_cons, hft, ht0, hk, h]

/-- A lookup misses exactly the keys outside the key column. -/
theorem bucketLookup_none_iff (b : Buckets) (k : Int) :
    bucketLookup b k = none ↔ k ∉ bucketLabels b := by
  induction b with
  | nil => simp [bucketLookup, bucketLabels]
  | cons p rest ih =>
    by_cases hp : p.1 = k
    · unfold bucketLookup bucketLabels
      rw [List.find?_cons_of_pos _ (by simpa using hp)]
      simp [hp]
    · unfold bucketLookup bucketLabels at ih ⊢
      rw [List.find?_cons_of_neg _ (by simpa using hp), List.map_cons,
        List.mem_cons]
      constructor
      · intro h hmem
        rcases hmem with he | hm
        · exact hp he.symm
        · exact (ih.mp h) hm
      · intro h
        exact ih.mpr (fun hm => h (Or.inr hm))

/-- In an all-zero bucket map, any present key looks up to zero. -/
theorem bucketLookup_zero (k : Int) :
    ∀ b : Buckets, (∀ p ∈ b, p.2 = 0) → k ∈ bucketLabels b →
      bucketLookup b k = some 0 := by
  intro b
  induction b with
  | nil =>
    intro _ hk
    simp [bucketLabels] at hk
  | cons p rest ih =>
    intro hz hk
    by_cases hp : p.1 = k
    · have h0 : p.2 = 0 := hz p (List.mem_cons_self _ _)
      unfold bucketLookup
      rw [List.find?_cons_of_pos _ (by simpa using hp)]
      simp [h0]
    · have hk2 : k ∈ bucketLabels rest := by
        simp only [bucketLabels, List.map_cons, List.mem_cons] at hk
        rcases hk with he | hm
        · exact absurd he.symm hp
        · exact hm
      unfold bucketLookup
      rw [List.find?_cons_of_neg _ (by simpa using hp)]
      exact ih (fun q hq => hz q (List.mem_cons_of_mem _ hq)) hk2

/-- Every entry of the freshly built bucket map is zero. -/
theorem bucketsInit_zero (now : Int) : ∀ p ∈ bucketsInit now, p.2 = 0 := by
  intro p hp
  rw [bucketsInit_explicit] at hp
  simp only [List.mem_cons, List.not_mem_nil, or_false] at hp
  rcases hp with h | h | h | h | h | h | h <;> subst h <;> rfl

/-- C3 counterexample: an event at 20:00 UTC (04:00 next day in the
Philippines) is counted in the bucket of its UTC day, while the bucket
of its Philippines-local calendar day — also among the 7 buckets —
stays zero, refuting region-local bucketing. -/
theorem bucket_day_not_region_local :
    utcDayKey 72000000 = 0 ∧
    phLocalDayKey 72000000 = 1 ∧
    bucketLookup
      (runBuckets (6 * msPerDay) [⟨"x", none, none, some 72000000, [], none⟩])
      1 = some 0 ∧
    bucketLookup
      (runBuckets (6 * msPerDay) [⟨"x", none, none, some 72000000, [], none⟩])
      0 = some 1 := by
  decide

/-- C3 amended: every fetched event with a truthy timestamp is counted
in the daily bucket matching its UTC calendar day (the date sliced from
`toISOString`), and keys outside the 7 pre-built buckets are silently
absent — events falling there are dropped without error. -/
theorem buckets_count_utc_day (now : Int) (fs : List Feature) (k : Int) :
    (k ∈ bucketLabels (bucketsInit now) →
      bucketLookup (runBuckets now fs) k = some (eventDayHits fs k)) ∧
    (k ∉ bucketLabels (bucketsInit now) →
      bucketLookup (runBuckets now fs) k = none) := by
  constructor
  · intro hk
    unfold runBuckets
    rw [bucketLookup_fold, bucketLookup_zero k _ (bucketsInit_zero now) hk]
    simp
  · intro hk
    unfold runBuckets
    rw [bucketLookup_fold, (bucketLookup_none_iff _ _).mpr hk]
    rfl

/-- Witness for the amended C3 at a concrete batch: the UTC-day bucket
of the event receives exactly its count. -/
theorem buckets_count_utc_day_w :
    bucketLookup
      (runBuckets (6 * msPerDay) [⟨"y", none, none, some 72000000, [], none⟩])
      0 = some (eventDayHits [⟨"y", none, none, some 72000000, [], none⟩] 0) :=
  (buckets_count_utc_day (6 * msPerDay)
    [⟨"y", none, none, some 72000000, [], none⟩] 0).1 (by decide)

/-- The candidate's magnitude never decreases along one scan step. -/
theorem largestStep_mag_le (b : Largest) (f : Feature) :
    ∃ b2, largestStep (some b) f = some b2 ∧ b.mag ≤ b2.mag := by
  rcases hf : f.mag with _ | m
  · exact ⟨b, by simp [largestStep, hf], le_refl _⟩
  · by_cases hm : m > b.mag
    · exact ⟨mkLargest m f, by simp [largestStep, hf, hm], le_of_lt hm⟩
    · exact ⟨b, by simp [largestStep, hf, hm], le_refl _⟩

/-- After stepping over a feature that has a magnitude, the candidate is
at least that magnitude. -/
theorem largestStep_head_le (best : Option Largest) (f : Feature) (m : ℚ)
    (hm : f.mag = some m) :
    ∃ b2, largestStep best f = some b2 ∧ m ≤ b2.mag := by
  cases best with
  | none => exact ⟨mkLargest m f, by simp [largestStep, hm], le_refl _⟩
  | some b =>
    by_cases hgt : m > b.mag
    · exact ⟨mkLargest m f, by simp [largestStep, hm, hgt], le_refl _⟩
    · exact ⟨b, by simp [largestStep, hm, hgt], not_lt.mp hgt⟩

/-- From a `some` accumulator the scan stays `some` and its magnitude is
monotone. -/
theorem scan_from_some (fs : List Feature) :
    ∀ b : Largest, ∃ v, fs.foldl largestStep (some b) = some v ∧ b.mag ≤ v.mag := by
  induction fs with
  | nil => exact fun b => ⟨b, rfl, le_refl _⟩
  | cons f rest ih =>
    intro b
    obtain ⟨b2, hb2, hle⟩ := largestStep_mag_le b f
    obtain ⟨v, hv, hle2⟩ := ih b2
    exact ⟨v, by rw [List.foldl_cons, hb2, hv], le_trans hle hle2⟩

/-- The scan yields nothing exactly when every scanned feature has a
null/undefined magnitude. -/
theorem scan_none_iff (fs : List Feature) :
    scanLargest fs = none ↔ ∀ f ∈ fs, f.mag = none := by
  induction fs with
  | nil => simp [scanLargest]
  | cons f rest ih =>
    rcases hf : f.mag with _ | m
    · rw [scanLargest, List.foldl_cons,
        show largestStep none f = none from by simp [largestStep, hf]]
      constructor
      · intro h g hg
        rcases List.mem_cons.mp hg with rfl | hg2
        · exact hf
        · exact (ih.mp h) g hg2
      · intro h
        exact ih.mpr (fun g hg => h g (List.mem_cons_of_mem _ hg))
    · have h1 : largestStep none f = some (mkLargest m f) := by
        simp [largestStep, hf]
      obtain ⟨v, hv, _⟩ := scan_from_some rest (mkLargest m f)
      rw [scanLargest, List.foldl_cons, h1, hv]
      constructor
      · intro h
        exact Option.noConfusion h
      · intro h
        have hcon := h f (List.mem_cons_self _ _)
        rw [hf] at hcon
        exact Option.noConfusion hcon

/-- Every scanned magnitude is bounded by the scan result's. -/
theorem scan_max (fs : List Feature) :
    ∀ (best : Option Largest) (v : Largest), fs.foldl largestStep best = some v →
      ∀ g ∈ fs, ∀ m, g.mag = some m → m ≤ v.mag := by
  induction fs with
  | nil =>
    intro best v _ g hg
    exact absurd hg (List.not_mem_nil g)
  | cons f rest ih =>
    intro best v h g hg m hm
    rw [List.foldl_cons] at h
    rcases List.mem_cons.mp hg with rfl | hg2
    · obtain ⟨b2, hb2, hle⟩ := largestStep_head_le best g m hm
      rw [hb2] at h
      obtain ⟨v2, hv2, hle2⟩ := scan_from_some rest b2
      have hvv : v2 = v := by
        have := hv2.symm.trans h
        exact Option.some.inj this
      exact le_trans hle (hvv ▸ hle2)
    · exact ih (largestStep best f) v h g hg2 m hm

/-- Provenance of the scan result: the winner is an element of the list
and everything strictly before it with a magnitude is strictly smaller —
ties keep the first encountered. -/
theorem scan_first (fs : List Feature) :
    ∀ (best : Option Largest) (v : Largest), fs.foldl largestStep best = some v →
      best = some v ∨
      ∃ pre g post, fs = pre ++ g :: post ∧ g.mag = some v.mag ∧
        v = mkLargest v.mag g ∧
        (∀ q ∈ pre, ∀ m, q.mag = some m → m < v.mag) ∧
        (∀ b, best = some b → b.mag < v.mag) := by
  induction fs with
  | nil =>
    intro best v h
    exact Or.inl h
  | cons f rest ih =>
    intro best v h
    rw [List.foldl_cons] at h
    rcases ih (largestStep best f) v h with hcase |
      ⟨pre, g, post, hsplit, hmag, hvg, hpre, hstep⟩
    · rcases hf : f.mag with _ | m
      · rw [show largestStep best f = best from by simp [largestStep, hf]] at hcase
        exact Or.inl hcase
      · cases best with
        | none =>
          have hv : v = mkLargest m f := by
            have h1 : largestStep none f = some (mkLargest m f) := by
              simp [largestStep, hf]
            exact (Option.some.inj (h1.symm.trans hcase)).symm
          subst hv
          exact Or.inr ⟨[], f, rest, rfl, hf, rfl, by simp, by simp⟩
        | some b =>
          by_cases hgt : m > b.mag
          · have hv : v = mkLargest m f := by
              have h1 : largestStep (some b) f = some (mkLargest m f) := by
                simp [largestStep, hf, hgt]
              exact (Option.some.inj (h1.symm.trans hcase)).symm
            subst hv
            refine Or.inr ⟨[], f, rest, rfl, hf, rfl, by simp, ?_⟩
            intro b2 hb2
            have hbb : b2 = b := Option.some.inj hb2.symm
            rw [hbb]
            exact hgt
          · have hv : b = v := by
              have : largestStep (some b) f = some b := by
                simp [largestStep, hf, hgt]
              exact Option.some.inj (this.symm.trans hcase)
            exact Or.inl (by rw [hv])
    · refine Or.inr ⟨f :: pre, g, post, by rw [hsplit, List.cons_append],
        hmag, hvg, ?_, ?_⟩
      · intro q hq m hm
        rcases List.mem_cons.mp hq with rfl | hq2
        · obtain ⟨b2, hb2, hle⟩ := largestStep_head_le best q m hm
          exact lt_of_le_of_lt hle (hstep b2 hb2)
        · exact hpre q hq2 m hm
      · intro b hb
        obtain ⟨b2, hb2, hle⟩ := largestStep_mag_le b f
        have hb2f : largestStep best f = some b2 := by rw [hb]; exact hb2
        exact lt_of_le_of_lt hle (hstep b2 hb2f)

/-- C8: within `updateStatistics`, the 24h subset holds exactly the
events with a truthy timestamp within the trailing 24 hours; the
largest-24h linear scan excludes null/undefined magnitudes, yields
nothing iff no event qualifies (rendering the em-dash placeholder), and
otherwise yields the first event attaining the maximum magnitude (a
strict comparison, so ties keep the first encountered). -/
theorem largest24_scan_correct (now : Int) (fs : List Feature) :
    (∀ f, f ∈ features24 now fs ↔
      f ∈ fs ∧ ∃ t, f.time = some t ∧ t ≠ 0 ∧ now - 86400000 ≤ t) ∧
    (scanLargest (features24 now fs) = none ↔
      ∀ f ∈ features24 now fs, f.mag = none) ∧
    (scanLargest (features24 now fs) = none →
      statLargestText (scanLargest (features24 now fs)) = "—") ∧
    (∀ v, scanLargest (features24 now fs) = some v →
      (∀ g ∈ features24 now fs, ∀ m, g.mag = some m → m ≤ v.mag) ∧
      ∃ pre g post, features24 now fs = pre ++ g :: post ∧
        g.mag = some v.mag ∧ v = mkLargest v.mag g ∧
        (∀ q ∈ pre, ∀ m, q.mag = some m → m < v.mag)) := by
  refine ⟨?_, scan_none_iff _, ?_, ?_⟩
  · intro f
    unfold features24
    rw [List.mem_filter]
    rcases hft : f.time with _ | t
    · simp [timeTruthy, hft]
    · simp [timeTruthy, hft, and_assoc]
  · intro h
    rw [h]
    rfl
  · intro v hv
    refine ⟨scan_max _ none v hv, ?_⟩
    rcases scan_first (features24 now fs) none v hv with hc |
      ⟨pre, g, post, hsplit, hmag, hvg, hpre, _⟩
    · exact Option.noConfusion hc
    · exact ⟨pre, g, post, hsplit, hmag, hvg, hpre⟩

/-- Witness for C8 at the empty batch: no event qualifies and the stat
renders the placeholder. -/
theorem largest24_scan_correct_w :
    statLargestText (scanLargest (features24 0 [])) = "—" :=
  (largest24_scan_correct 0 []).2.2.1 rfl

end Alert
